import Mathlib

set_option maxHeartbeats 1000000

namespace Webcrack

/-!
Shallow embedding of the webcrack deobfuscation pipeline (the Abba and
obfuscator.io targets, the target registry and resolver, and the
scope-aware dead-code pass), together with theorems checking the
specification's claims against the embedded code.
-/

/-! ### Character-list string helpers

The source performs textual checks (`JSON.stringify(body).includes('push')`,
`val.startsWith('0x')`, `parseInt`).  These are modelled over `List Char`
so that concrete instances reduce in the kernel. -/

/-- Whether `s` starts with `pat`.  Models `String.prototype.startsWith`
on the underlying character sequences. -/
def charsBegins : List Char → List Char → Bool
  | _, [] => true
  | [], _ :: _ => false
  | c :: cs, p :: ps => c == p && charsBegins cs ps

/-- Whether `pat` occurs as a contiguous run in `s`.  Models
`String.prototype.includes`. -/
def charsContains : List Char → List Char → Bool
  | [], pat => pat.isEmpty
  | s@(_ :: cs), pat => charsBegins s pat || charsContains cs pat

/-- Substring containment on strings. -/
def strMentions (s pat : String) : Bool :=
  charsContains s.data pat.data

/-- Starts-with on strings. -/
def strBegins (s pat : String) : Bool :=
  charsBegins s.data pat.data

/-! ### Syntax-tree model

A fragment of the Babel AST, covering exactly the node kinds the embedded
transforms inspect.  `functionExpr` carries both the serialized body text
(`bodySrc`, standing for `JSON.stringify(callee.body)`, which the rotator
scans textually) and the structured list of top-level body statements
(`callee.body.body`, which the rotator scans for the pre-increment call).
`updateExpr`'s `isPre` field is Babel's boolean flag distinguishing
pre-increment from post-increment. -/

mutual
inductive Expr where
  | ident (name : String)
  | numLit (value : Nat)
  | strLit (value : String)
  | updateExpr (op : String) (isPre : Bool) (arg : Expr)
  | unaryExpr (op : String) (arg : Expr)
  | binaryExpr (op : String) (left right : Expr)
  | condExpr (test consequent alternate : Expr)
  | arrayExpr (elements : List Expr)
  | objectExpr (props : List (String × Expr))
  | memberExpr (obj : Expr) (computed : Bool) (prop : Expr)
  | callExpr (callee : Expr) (args : List Expr)
  | newExpr (callee : Expr) (args : List Expr)
  | functionExpr (params : List String) (bodySrc : String) (body : List Stmt)
  | otherExpr

inductive Stmt where
  | exprStmt (e : Expr)
  | otherStmt
end

/-- The node a scope binding resolves to (`binding.path.node`): a variable
declarator with optional initializer, a function declaration, or anything
else. -/
inductive BindingNode where
  | varDeclarator (declInit : Option Expr)
  | funcDecl
  | otherBinding

/-- A scope, as the transforms use it: `path.scope.getBinding(name)`. -/
def Scope := String → Option BindingNode

/-! ### Abba string-array rotator (`abba-string-array-rotator`)

Embedding of the `CallExpression` handler in
`src/unnamed/part_002` lines 38-135. -/

/-- One iteration of the rotation loop: `elements.shift()` followed by
`elements.push(firstElement)` (the shifted element of a non-empty Babel
element list is never `undefined`, so it is always pushed back). -/
def rotateOnce {α : Type} : List α → List α
  | [] => []
  | x :: xs => xs ++ [x]

/-- The rotation loop: `for (let i = 0; i < effectiveRotation; i++)`. -/
def rotateN {α : Type} : Nat → List α → List α
  | 0, l => l
  | n + 1, l => rotateN n (rotateOnce l)

/-- Step 4 of the handler: scan the IIFE body's top-level statements for an
expression statement that calls with a *pre* `++` update expression as its
first argument (the code breaks at the first such statement, which is what
`List.any` computes). -/
def detectPreIncrement (body : List Stmt) : Bool :=
  body.any fun stmt =>
    match stmt with
    | .exprStmt (.callExpr _ (firstArg :: _)) =>
      match firstArg with
      | .updateExpr "++" true _ => true
      | _ => false
    | _ => false

/-- Result of a successful rotator-handler run: the array expression's new
element list (mutated in place in the source), whether the rotation IIFE was
removed (`path.remove()`), and the mutation count (`this.changes++`). -/
structure RotResult where
  newElements : List Expr
  iifeRemoved : Bool
  changes : Nat

/-- The `abba-string-array-rotator` `CallExpression` handler.  `none` means
the handler returned early, leaving the IIFE and the array untouched and the
change count unmodified.  Mirrors `src/unnamed/part_002` lines 38-135:
1. callee must be a function expression, args must be `(identifier, numericLiteral)`;
2. the serialized body must mention `push` and `shift`;
3. the identifier must resolve to a variable declarator whose initializer
   is an array expression;
4. a pre-`++` first argument of an inner call adds 1 to the rotation;
5. an empty element list returns early (before any mutation or removal);
6. otherwise rotate by `rotationAmount % length` and remove the IIFE. -/
def stringArrayRotator (callee : Expr) (args : List Expr) (scope : Scope) :
    Option RotResult :=
  match callee, args with
  | .functionExpr _ bodySrc body, [.ident arrayName, .numLit n] =>
    if !(strMentions bodySrc "push") || !(strMentions bodySrc "shift") then
      none
    else
      match scope arrayName with
      | some (.varDeclarator (some (.arrayExpr elements))) =>
        let rotationAmount := n + (if detectPreIncrement body then 1 else 0)
        if elements.isEmpty then
          none
        else
          let effectiveRotation := rotationAmount % elements.length
          some { newElements := rotateN effectiveRotation elements,
                 iifeRemoved := true,
                 changes := 1 }
      | _ => none
  | _, _ => none

/-! Concrete rotator inputs used by the witness (scenario 3 of the spec)
and the empty-array boundary case. -/

/-- Rotator IIFE callee for the witness: body mentions `push`/`shift` and
contains the `g(++f)` statement. -/
def rotCalleeW : Expr :=
  .functionExpr ["e", "f"]
    "var g = function (h) while (--h) e.push(e.shift()); g(++f);"
    [.otherStmt, .exprStmt (.callExpr (.ident "g") [.updateExpr "++" true (.ident "f")])]

def rotArgsW : List Expr := [.ident "a", .numLit 2]

def rotElemsW : List Expr :=
  [.strLit "one", .strLit "two", .strLit "three", .strLit "four"]

def rotScopeW : Scope := fun s =>
  if s == "a" then some (.varDeclarator (some (.arrayExpr rotElemsW))) else none

/-- Empty-array variant of the same scope (claim C2's boundary case). -/
def rotScopeEmpty : Scope := fun s =>
  if s == "a" then some (.varDeclarator (some (.arrayExpr []))) else none

/-! ### Abba proxy inliner (`abba-proxy-inliner`)

Embedding of `src/packages/webcrack/src/deobfuscate/abba/proxy-inliner.ts`. -/

/-- Decimal digit value, as JS `parseInt` with radix 10 accepts
(code points 48-57 are the digits 0-9). -/
def decDigitVal (c : Char) : Option Nat :=
  let n := c.toNat
  if 48 ≤ n ∧ n ≤ 57 then some (n - 48) else none

/-- Hexadecimal digit value, as JS `parseInt` with radix 16 accepts
(code points 97-102 are a-f, 65-70 are A-F). -/
def hexDigitVal (c : Char) : Option Nat :=
  let n := c.toNat
  if 48 ≤ n ∧ n ≤ 57 then some (n - 48)
  else if 97 ≤ n ∧ n ≤ 102 then some (n - 87)
  else if 65 ≤ n ∧ n ≤ 70 then some (n - 55)
  else none

/-- Longest run of valid digits at the front of the character list
(`parseInt` stops at the first invalid character). -/
def takeDigits (digitVal : Char → Option Nat) : List Char → List Nat
  | [] => []
  | c :: cs =>
    match digitVal c with
    | some d => d :: takeDigits digitVal cs
    | none => []

/-- Accumulate a digit run into a number; `none` models `NaN` (no valid
digits at all). -/
def parseUnsigned (digitVal : Char → Option Nat) (radix : Nat)
    (cs : List Char) : Option Nat :=
  match takeDigits digitVal cs with
  | [] => none
  | ds => some (ds.foldl (fun acc d => acc * radix + d) 0)

/-- Model of JS `parseInt(s, radix)` on the digit part: optional leading
whitespace, optional sign, then digits. -/
def parseSigned (digitVal : Char → Option Nat) (radix : Nat)
    (cs : List Char) : Option Int :=
  let cs := cs.dropWhile fun c => c == ' ' || c == '\t' || c == '\n' || c == '\r'
  match cs with
  | '-' :: rest => (parseUnsigned digitVal radix rest).map fun n => -(n : Int)
  | '+' :: rest => (parseUnsigned digitVal radix rest).map fun n => (n : Int)
  | _ => (parseUnsigned digitVal radix cs).map fun n => (n : Int)

/-- Model of `parseInt(val, 10)`. -/
def parseIntDec (s : String) : Option Int :=
  parseSigned decDigitVal 10 s.data

/-- Strip the `0x` / `0X` marker which `parseInt` with radix 16 accepts. -/
def stripHexMarker : List Char → List Char
  | '0' :: 'x' :: rest => rest
  | '0' :: 'X' :: rest => rest
  | cs => cs

/-- Model of `parseInt(val, 16)`. -/
def parseIntHex (s : String) : Option Int :=
  parseSigned hexDigitVal 16 (stripHexMarker s.data)

/-- The captured proxy data (`proxyName`, `arrayName`, `offset`,
`stringArray` in the visitor's closure state). -/
structure ProxyInfo where
  proxyName : String
  arrayName : String
  offset : Nat
  strings : List String

/-- The relevant nodes encountered by `bodyPath.traverse` inside
`analyzeProxyFunction`, in traversal order: variable declarators (with
their initializer) and assignment expressions (with their right-hand
side); everything else is `otherNode`. -/
inductive InnerNode where
  | varDecl (name : String) (declInit : Option Expr)
  | assign (lhs rhs : Expr)
  | otherNode

/-- The two sub-visitors of `analyzeProxyFunction`'s `bodyPath.traverse`:
each computed member-expression initializer with an identifier object
overwrites `detectedArrayName`, and each assignment whose right side is
`_ - numericLiteral` overwrites `detectedOffset` (the last hit wins). -/
def scanProxyBody : List InnerNode → String × Nat → String × Nat
  | [], acc => acc
  | .varDecl _ (some (.memberExpr (.ident obj) true _)) :: rest, (_, off) =>
    scanProxyBody rest (obj, off)
  | .assign _ (.binaryExpr "-" _ (.numLit n)) :: rest, (arr, _) =>
    scanProxyBody rest (arr, n)
  | _ :: rest, acc => scanProxyBody rest acc

/-- Capture of the array elements:
`elements.map((el) => t.isStringLiteral(el) ? el.value : ...)`. -/
def extractStrings (elements : List Expr) : List String :=
  elements.map fun el =>
    match el with
    | .strLit s => s
    | _ => ""

/-- Embedding of `analyzeProxyFunction` (proxy-inliner.ts lines 54-151): checks the 1-2
parameter count, scans the body for the array access and the offset,
resolves the array through scope to a variable declarator with an
array-expression initializer, and captures the proxy data. -/
def analyzeProxyFunction (funcName : String) (paramCount : Nat)
    (nodes : List InnerNode) (scope : Scope) : Option ProxyInfo :=
  if paramCount < 1 || paramCount > 2 then
    none
  else
    match scanProxyBody nodes ("", 0) with
    | (arrayName, offset) =>
      if arrayName = "" then
        none
      else
        match scope arrayName with
        | some (.varDeclarator (some (.arrayExpr es))) =>
          some { proxyName := funcName, arrayName := arrayName,
                 offset := offset, strings := extractStrings es }
        | _ => none

/-- Index parsing of a proxy call's first argument (proxy-inliner.ts lines
204-230): hex-prefixed strings through `parseInt(val, 16)`, other strings
through `parseInt(val, 10)`, numeric literals as-is, anything else (and
`NaN`) rejected. -/
def parseCallIndex (arg : Expr) : Option Int :=
  match arg with
  | .strLit v =>
    if strBegins v "0x" || strBegins v "0X" then parseIntHex v else parseIntDec v
  | .numLit n => some (n : Int)
  | _ => none

/-- Embedding of the `CallExpression` exit handler of the proxy inliner
(lines 190-260).
`some s` means the call was replaced with the string literal `s` (and
`this.changes` incremented); `none` means the call was left unchanged. -/
def proxyInlineCall (ctx : ProxyInfo) (callee : Expr) (args : List Expr) :
    Option String :=
  if ctx.proxyName = "" || ctx.strings.isEmpty then
    none
  else
    match callee with
    | .ident n =>
      if n ≠ ctx.proxyName then
        none
      else
        match args with
        | [] => none
        | firstArg :: _ =>
          match parseCallIndex firstArg with
          | none => none
          | some index =>
            let finalIndex := index - (ctx.offset : Int)
            if finalIndex < 0 || (ctx.strings.length : Int) ≤ finalIndex then
              none
            else
              some (ctx.strings.getD finalIndex.toNat "")
    | _ => none

/-! ### Abba dead-code removal (ghost-reference variant)

Embedding of `isValidReference` / `processScope` from the `run`-based
dead-code transform (second document of `module-resolver.ts`,
lines 230-291). -/

/-- A reference or constant-violation path; `rootsAtProgram` records whether
`refPath.findParent((p) => p.isProgram())` finds the program root (ghost
references do not). -/
structure RefPathM where
  rootsAtProgram : Bool

/-- Embedding of `isValidReference`: a reference is live iff its path still roots at the
program node. -/
def isValidReference (r : RefPathM) : Bool :=
  r.rootsAtProgram

/-- A scope binding as `processScope` consumes it. -/
structure ScopeBinding where
  name : String
  referencePaths : List RefPathM
  constantViolations : List RefPathM
  node : BindingNode

mutual
/-- Purity of an initializer.  Models Babel's `initPath.isPure()` (a library
function, not part of this repository) as the specification's §3
pure-initializer predicate; it coincides with the repository's own
`isSafeInitializer` (dead-code-removal.ts lines 18-73) on every node kind
modelled here: literals, functions, identifiers and member expressions are
pure, arrays/objects of pure values are pure, unary/binary/conditional
expressions over pure operands are pure, and calls, `new` expressions and
everything else are impure. -/
def isPureInit : Expr → Bool
  | .strLit _ => true
  | .numLit _ => true
  | .functionExpr _ _ _ => true
  | .ident _ => true
  | .memberExpr _ _ _ => true
  | .arrayExpr es => isPureList es
  | .objectExpr props => isPureProps props
  | .binaryExpr _ l r => isPureInit l && isPureInit r
  | .unaryExpr _ a => isPureInit a
  | .condExpr t c a => isPureInit t && isPureInit c && isPureInit a
  | _ => false

def isPureList : List Expr → Bool
  | [] => true
  | e :: es => isPureInit e && isPureList es

def isPureProps : List (String × Expr) → Bool
  | [] => true
  | p :: ps => isPureInit p.2 && isPureProps ps
end

/-- Live-reference count of a binding: `validRefs.length +
validConstantViolations.length` after filtering through `isValidReference`. -/
def liveRefCount (b : ScopeBinding) : Nat :=
  (b.referencePaths.filter isValidReference).length +
    (b.constantViolations.filter isValidReference).length

/-- Removal decision of `processScope` for one binding: with zero live
entries, function declarations are always removed and variable declarators
are removed when the initializer is absent or pure
(`!initPath.node || initPath.isPure()`). -/
def bindingRemovable (b : ScopeBinding) : Bool :=
  if liveRefCount b > 0 then
    false
  else
    match b.node with
    | .funcDecl => true
    | .varDeclarator none => true
    | .varDeclarator (some e) => isPureInit e
    | .otherBinding => false

/-- Embedding of `processScope` over one scope's bindings: the list of bindings removed
(in iteration order) together with the number of `state.changes` increments
(one per removal). -/
def processScope (bs : List ScopeBinding) : List ScopeBinding × Nat :=
  let removed := bs.filter bindingRemovable
  (removed, removed.length)

/-! ### Abba string-array extractor (`abba-string-array-extractor`)

Embedding of the proxy-sandbox variant
(`string-array-extractor.ts` lines 329-429). -/

/-- Sandbox values, at the granularity the extractor observes: `undefined`,
strings (given faithfully), and every other host value (functions, mocks,
numbers), tagged opaquely. -/
inductive JSVal where
  | vundefined
  | vstr (s : String)
  | vother

/-- Model of `String(item)`: defined for the values above; string values convert to
themselves, `undefined` to `"undefined"`, opaque host values to an
unspecified string (the claim does not depend on it). -/
def jsToString : JSVal → String
  | .vundefined => "undefined"
  | .vstr s => s
  | .vother => ""

/-- A sandbox is a JS object: an ordered key-value list. -/
def Sandbox := List (String × JSVal)

/-- JS property write `sandbox[k] = v`: overwrite in place, else append. -/
def sandboxSet : List (String × JSVal) → String → JSVal → List (String × JSVal)
  | [], k, v => [(k, v)]
  | p :: rest, k, v =>
    if p.1 == k then (k, v) :: rest else p :: sandboxSet rest k v

/-- JS property read `sandbox[k]`. -/
def sandboxGet : List (String × JSVal) → String → Option JSVal
  | [], _ => none
  | p :: rest, k => if p.1 == k then some p.2 else sandboxGet rest k

/-- The keys seeded by `createSandbox()` (string-array-extractor.ts lines
156-304), in declaration order.  Only `undefined` is bound to the
`undefined` value; all the others are host functions, constructors or mock
objects, tagged opaquely. -/
def baseSandboxKeys : List String :=
  ["decodeURIComponent", "unescape", "escape", "encodeURIComponent",
   "encodeURI", "decodeURI", "String", "Array", "Object", "RegExp",
   "Function", "Math", "parseInt", "parseFloat", "isNaN", "isFinite",
   "undefined", "NaN", "Infinity", "Boolean", "Number", "Date", "JSON",
   "Error", "TypeError", "ReferenceError", "SyntaxError", "RangeError",
   "URIError", "EvalError", "ArrayBuffer", "Uint8Array", "Uint16Array",
   "Uint32Array", "Int8Array", "Int16Array", "Int32Array", "Float32Array",
   "Float64Array", "Map", "Set", "WeakMap", "WeakSet", "Promise", "Symbol",
   "Proxy", "Reflect", "atob", "btoa", "window", "document", "navigator",
   "location", "self", "globalThis", "console", "setTimeout", "setInterval",
   "clearTimeout", "clearInterval", "requestAnimationFrame",
   "cancelAnimationFrame"]

/-- Embedding of `createSandbox()`: the fresh base sandbox. -/
def createSandbox : List (String × JSVal) :=
  baseSandboxKeys.map fun k =>
    (k, if k == "undefined" then JSVal.vundefined else JSVal.vother)

/-- The sandbox actually handed to evaluation for a declarator named
`varName`: `const sandbox = createSandbox(); sandbox[varName] = undefined;`. -/
def extractorSandbox (varName : String) : List (String × JSVal) :=
  sandboxSet createSandbox varName .vundefined

/-- Outcome of `executeInSandbox(code, sandbox)`: an exception, a non-array
value, or an array of values. -/
inductive EvalOutcome where
  | threw
  | nonArrayValue
  | arrayValue (items : List JSVal)

/-- The declarator's binding pattern (`path.node.id`). -/
inductive Pat where
  | identPat (name : String)
  | otherPat

/-- Result of one extractor visit: the replacement initializer if the
declarator was rewritten, and the change count. -/
structure ExtractResult where
  newInit : Option Expr
  changes : Nat

/-- Embedding of the `VariableDeclarator` visitor of the proxy-sandbox
string-array extractor (lines 336-426).  `run` stands for evaluating the regenerated
initializer source in a given sandbox; the definition applies it to
`extractorSandbox varName`, the fresh sandbox with the declarator's own
name bound to `undefined`.  `newInit = none` means the declarator was left
unchanged. -/
def stringArrayExtractor (pat : Pat) (declInit : Option Expr)
    (run : List (String × JSVal) → EvalOutcome) : ExtractResult :=
  match pat with
  | .otherPat => { newInit := none, changes := 0 }
  | .identPat varName =>
    match declInit with
    | none => { newInit := none, changes := 0 }
    | some i =>
      match i with
      | .callExpr callee args =>
        match callee with
        | .functionExpr _ _ _ =>
          if args.any (fun a => match a with | .strLit _ => true | _ => false) then
            match run (extractorSandbox varName) with
            | .arrayValue items =>
              { newInit :=
                  some (.arrayExpr (items.map fun it => .strLit (jsToString it))),
                changes := 1 }
            | .nonArrayValue => { newInit := none, changes := 0 }
            | .threw => { newInit := none, changes := 0 }
          else { newInit := none, changes := 0 }
        | _ => { newInit := none, changes := 0 }
      | _ => { newInit := none, changes := 0 }

/-! ### Obfuscator.io target run

Embedding of `obfuscatorIOTarget.deobfuscate.run`
(`targets/obfuscator-io.ts` lines 47-98).  The external probes and
transforms (`findStringArray`, `findArrayRotator`, `findDecoders`,
`inlineObjectProps`, `inlineDecoderWrappers`, `inlineDecodedStrings`, and
the cleanup quartet) live outside this repository slice; their outcomes are
the parameters of `OioContext`. -/

structure OioContext where
  /-- Whether `context.sandbox` is present. -/
  hasSandbox : Bool
  /-- Result of `findStringArray(ast)`: `some len` when the probe matches. -/
  stringArray : Option Nat
  /-- Whether `findArrayRotator(stringArray)` found a rotator. -/
  rotatorPresent : Bool
  /-- Result of `findDecoders(stringArray)`: one change count of
  `inlineDecoderWrappers` per decoder found. -/
  decoders : List Nat
  /-- Change count reported by `inlineObjectProps`. -/
  objectPropsChanges : Nat
  /-- Change count reported by `inlineDecodedStrings`. -/
  decodedStringsChanges : Nat
  /-- Change count reported by the `no-scope` cleanup pass. -/
  cleanupChanges : Nat

structure OioResult where
  /-- Total added to `state.changes` by the run. -/
  changes : Nat
  /-- True when `stringArray.path.remove()` happened. -/
  arrayRemoved : Bool
  /-- True when `rotator?.remove()` removed a rotator. -/
  rotatorRemoved : Bool
  /-- Number of decoder declarations removed. -/
  decodersRemoved : Nat
  /-- Whether any transform was applied to the tree at all. -/
  ranTransforms : Bool

/-- The run: bail out (a pure no-op) without a sandbox or without a string
array; otherwise apply the transforms in order, remove the infrastructure
when at least one decoder was found (crediting `2 + |decoders|` changes
whether or not a rotator was present), and finish with the cleanup pass. -/
def obfuscatorIoRun (ctx : OioContext) : OioResult :=
  if !ctx.hasSandbox then
    { changes := 0, arrayRemoved := false, rotatorRemoved := false,
      decodersRemoved := 0, ranTransforms := false }
  else
    match ctx.stringArray with
    | none =>
      { changes := 0, arrayRemoved := false, rotatorRemoved := false,
        decodersRemoved := 0, ranTransforms := false }
    | some _ =>
      let wrapperChanges := ctx.decoders.foldl (fun acc c => acc + c) 0
      let removalChanges :=
        if ctx.decoders.length > 0 then 2 + ctx.decoders.length else 0
      { changes := ctx.objectPropsChanges + wrapperChanges +
          ctx.decodedStringsChanges + removalChanges + ctx.cleanupChanges,
        arrayRemoved := ctx.decoders.length > 0,
        rotatorRemoved := ctx.decoders.length > 0 && ctx.rotatorPresent,
        decodersRemoved := if ctx.decoders.length > 0 then ctx.decoders.length else 0,
        ranTransforms := true }

/-! ### Target registry and resolution

Embedding of `DeobfuscatorRegistry.detect` / `get` / `getDefault`
(second document of `member-expression-simplifier.ts`, lines 96-198) and
of `resolveTarget` / `runDeobfuscation` (`src/unnamed/part_005`
lines 26-71 and 128-145).  Confidences are JS numbers, modelled as
rationals. -/

/-- A registered target, reduced to what resolution observes: its id and
the outcome of its `detect` method (`none` when the target has no `detect`
or `detect` threw, which the registry swallows). -/
structure TargetM where
  id : String
  confidence : Option ℚ

structure RegistryM where
  targets : List TargetM
  defaultId : Option String

/-- Embedding of `registry.get(id)`. -/
def registryGet (r : RegistryM) (id : String) : Option TargetM :=
  r.targets.find? fun t => t.id == id

/-- Embedding of `registry.getDefault()`. -/
def registryGetDefault (r : RegistryM) : Option TargetM :=
  match r.defaultId with
  | none => none
  | some d => registryGet r d

/-- Insert into a list sorted by strictly descending confidence; models one
step of the stable `sort((a, b) => b.result.confidence - a.result.confidence)`. -/
def insertDesc (x : String × ℚ) : List (String × ℚ) → List (String × ℚ)
  | [] => [x]
  | y :: ys => if x.2 > y.2 then x :: y :: ys else y :: insertDesc x ys

def sortDesc : List (String × ℚ) → List (String × ℚ)
  | [] => []
  | x :: xs => insertDesc x (sortDesc xs)

/-- Embedding of `registry.detect(ast)`: run each target's `detect`, keep the results
with positive confidence, sort by descending confidence. -/
def registryDetect (r : RegistryM) : List (String × ℚ) :=
  sortDesc (r.targets.filterMap fun t =>
    match t.confidence with
    | none => none
    | some c => if c > 0 then some (t.id, c) else none)

/-- Model of `options.target`. -/
inductive TargetOpt where
  | bool (b : Bool)
  | str (s : String)

structure RunnerOptions where
  target : Option TargetOpt
  threshold : Option ℚ

/-- Error kind modelling `UnknownTargetError`. -/
inductive ResolveError where
  | unknownTarget

/-- The default-fallback tail of `resolveTarget`. -/
def resolveFallback (r : RegistryM) : Except ResolveError (Option String) :=
  match registryGetDefault r with
  | some t => .ok (some t.id)
  | none => .ok none

/-- The auto-detection branch of `resolveTarget`. -/
def resolveAuto (r : RegistryM) (threshold : ℚ) :
    Except ResolveError (Option String) :=
  match registryDetect r with
  | d :: _ => if d.2 ≥ threshold then .ok (some d.1) else resolveFallback r
  | [] => resolveFallback r

/-- Embedding of `resolveTarget` (part_005 lines 26-71): explicit ids other than
`'auto'` are looked up in the registry and fail with `UnknownTargetError`
when missing; `'auto'` and `true` run detection with the threshold
defaulting to `0.3`; `false` yields no target. -/
def resolveTarget (r : RegistryM) (opts : RunnerOptions) :
    Except ResolveError (Option String) :=
  let target := opts.target.getD (.bool true)
  let threshold := opts.threshold.getD (3 / 10 : ℚ)
  match target with
  | .bool false => .ok none
  | .str s =>
    if s = "auto" then
      resolveAuto r threshold
    else
      match registryGet r s with
      | none => .error .unknownTarget
      | some t => .ok (some t.id)
  | .bool true => resolveAuto r threshold

/-- Embedding of `runDeobfuscation` (part_005 lines 128-145), observed through the
returned `TransformState.changes`: a fresh state starts at 0; with no
resolved target the state is returned untouched; otherwise the target's run
accumulates into it (`targetChanges` stands for what the chosen target's
pipeline reports). -/
def runDeobfuscation (r : RegistryM) (opts : RunnerOptions)
    (targetChanges : String → Nat) : Except ResolveError Nat :=
  match resolveTarget r opts with
  | .error e => .error e
  | .ok none => .ok 0
  | .ok (some id) => .ok (targetChanges id)

/-! ### Abba proxy-inliner traversal (cross-phase state)

The proxy inliner's visitor closes over mutable state (`proxyName`,
`proxyPath`, `arrayName`, `offset`, `stringArray`).  The traversal is
modelled as the depth-first sequence of the events the visitor reacts to:
proxy-candidate declarations (function declarations and
function-expression declarators, pre-filtered by the syntactic checks of
lines 155-187) and call expressions. -/

inductive PEvent where
  | funcDeclCand (name : String) (paramCount : Nat) (nodes : List InnerNode)
  | varDeclCand (name : String) (paramCount : Nat) (nodes : List InnerNode)
  | call (callee : Expr) (args : List Expr)
  | skipNode

/-- The visitor's closure state plus the observable actions: `removedIdx`
is the declaration removed at program exit, `inlineLog` records each
call-site replacement (event index and inlined string). -/
structure PIState where
  proxyName : String
  proxyIdx : Option Nat
  arrayName : String
  offset : Nat
  strings : List String
  changes : Nat
  removedIdx : Option Nat
  inlineLog : List (Nat × String)

def piInit : PIState :=
  { proxyName := "", proxyIdx := none, arrayName := "", offset := 0,
    strings := [], changes := 0, removedIdx := none, inlineLog := [] }

/-- One visitor dispatch.  Candidate handlers return immediately when
`proxyName` is already set (`if (proxyName) return`), else run
`analyzeProxyFunction` and capture on success; call handlers run the
inlining against the current captured state. -/
def piStep (scope : Scope) (s : PIState) (idx : Nat) (ev : PEvent) : PIState :=
  match ev with
  | .funcDeclCand name pc nodes | .varDeclCand name pc nodes =>
    if s.proxyName ≠ "" then
      s
    else
      match analyzeProxyFunction name pc nodes scope with
      | some info =>
        { s with proxyName := info.proxyName, proxyIdx := some idx,
                 arrayName := info.arrayName, offset := info.offset,
                 strings := info.strings }
      | none => s
  | .call callee args =>
    match proxyInlineCall
        { proxyName := s.proxyName, arrayName := s.arrayName,
          offset := s.offset, strings := s.strings } callee args with
    | some rep =>
      { s with changes := s.changes + 1, inlineLog := s.inlineLog ++ [(idx, rep)] }
    | none => s
  | .skipNode => s

def piRunAux (scope : Scope) : List PEvent → Nat → PIState → PIState
  | [], _, s => s
  | ev :: rest, idx, s => piRunAux scope rest (idx + 1) (piStep scope s idx ev)

/-- Embedding of the `Program` exit handler (lines 263-271): remove the captured
declaration, if any. -/
def piFinish (s : PIState) : PIState :=
  if s.proxyIdx.isSome && s.proxyName ≠ "" then
    { s with removedIdx := s.proxyIdx, changes := s.changes + 1 }
  else s

/-- A whole proxy-inliner application over a traversal. -/
def piRun (scope : Scope) (events : List PEvent) : PIState :=
  piFinish (piRunAux scope events 0 piInit)

/-- The analysis a candidate event would produce, independent of state. -/
def candAnalysis (scope : Scope) (ev : PEvent) : Option ProxyInfo :=
  match ev with
  | .funcDeclCand n pc nodes | .varDeclCand n pc nodes =>
    analyzeProxyFunction n pc nodes scope
  | _ => none

/-- The candidate's declared name, when the event is a candidate. -/
def candName : PEvent → Option String
  | .funcDeclCand n _ _ | .varDeclCand n _ _ => some n
  | _ => none

/-- First successfully analyzed candidate, with its event index. -/
def firstMatch (scope : Scope) : List PEvent → Nat → Option (Nat × ProxyInfo)
  | [], _ => none
  | ev :: rest, idx =>
    match candAnalysis scope ev with
    | some info => some (idx, info)
    | none => firstMatch scope rest (idx + 1)

/-- The proxy-capture fields of a state. -/
def piFields (s : PIState) : String × Option Nat × String × Nat × List String :=
  (s.proxyName, s.proxyIdx, s.arrayName, s.offset, s.strings)

/-- The proxy-capture fields determined by a (possible) first match. -/
def fieldsOfMatch : Option (Nat × ProxyInfo) →
    String × Option Nat × String × Nat × List String
  | none => ("", none, "", 0, [])
  | some (i, info) => (info.proxyName, some i, info.arrayName, info.offset, info.strings)

/-! ### Concrete inputs for witnesses and counterexamples -/

/-- The proxy of spec scenario 4: `function b(d){d = d - 0x10; return a[d];}`
over `a = ["X", "Y", "Z"]`. -/
def proxyCtxW : ProxyInfo :=
  { proxyName := "b", arrayName := "a", offset := 16, strings := ["X", "Y", "Z"] }

/-- A ghost reference: its path no longer roots at the program. -/
def ghostRef : RefPathM := { rootsAtProgram := false }

/-- A function-declaration binding whose only reference is a ghost. -/
def deadBindingW : ScopeBinding :=
  { name := "f", referencePaths := [ghostRef], constantViolations := [],
    node := .funcDecl }

/-- An evaluation that returns the two-string array of spec scenario 2. -/
def extractRunW : List (String × JSVal) → EvalOutcome := fun _ =>
  .arrayValue [.vstr "alpha", .vstr "beta"]

/-- Obfuscator.io context with every probe succeeding but no sandbox. -/
def oioNoSandboxW : OioContext :=
  { hasSandbox := false, stringArray := some 2, rotatorPresent := true,
    decoders := [3], objectPropsChanges := 1, decodedStringsChanges := 4,
    cleanupChanges := 5 }

/-- Obfuscator.io context with a sandbox but no string array found. -/
def oioNoArrayW : OioContext :=
  { oioNoSandboxW with hasSandbox := true, stringArray := none }

/-- Obfuscator.io context with two decoders and no rotator. -/
def oioFullW : OioContext :=
  { hasSandbox := true, stringArray := some 2, rotatorPresent := false,
    decoders := [3, 1], objectPropsChanges := 1, decodedStringsChanges := 4,
    cleanupChanges := 5 }

/-- The registry as `targets/index.ts` builds it, with the obfuscator.io
target detecting a string array (confidence 0.5) and the Abba target
reporting confidence 0. -/
def regW : RegistryM :=
  { targets := [ { id := "obfuscator.io", confidence := some (1 / 2) },
                 { id := "abba", confidence := some 0 } ],
    defaultId := some "obfuscator.io" }

def optsUnknownW : RunnerOptions :=
  { target := some (.str "cloudflare"), threshold := none }

def optsAutoW : RunnerOptions :=
  { target := some (.str "auto"), threshold := none }

/-- Scope binding the array `a` of spec scenario 4. -/
def proxyScopeW : Scope := fun s =>
  if s == "a" then
    some (.varDeclarator (some (.arrayExpr [.strLit "X", .strLit "Y", .strLit "Z"])))
  else none

/-- Traversal hits inside the proxy body `d = d - 0x10; var f = a[d];`. -/
def proxyNodesW : List InnerNode :=
  [.assign (.ident "d") (.binaryExpr "-" (.ident "d") (.numLit 16)),
   .varDecl "f" (some (.memberExpr (.ident "a") true (.ident "d")))]

/-- A traversal with two matching proxy candidates and one proxy call. -/
def piEventsW : List PEvent :=
  [.funcDeclCand "b" 1 proxyNodesW,
   .varDeclCand "c" 1 proxyNodesW,
   .call (.ident "b") [.strLit "0x11"]]

/-! ### Helper lemmas -/

/-- The rotation loop of the rotator computes the
`[m .. L-1, 0 .. m-1]` permutation for `m ≤ L`. -/
theorem rotateN_eq_drop_append_take {α : Type} :
    ∀ (m : Nat) (l : List α), m ≤ l.length →
      rotateN m l = l.drop m ++ l.take m := by
  intro m
  induction m with
  | zero => intro l _; simp [rotateN]
  | succ k ih =>
    intro l hm
    match l with
    | [] => simp at hm
    | x :: xs =>
      have hk : k ≤ xs.length := by
        have := hm
        simp only [List.length_cons] at this
        omega
      have step : rotateN (k + 1) (x :: xs) = rotateN k (xs ++ [x]) := rfl
      rw [step, ih (xs ++ [x]) (by simp; omega)]
      rw [List.drop_append_of_le_length hk, List.take_append_of_le_length hk]
      simp

/-- A JS property write is observable at the written key. -/
theorem sandboxGet_set (sb : List (String × JSVal)) (k : String) (v : JSVal) :
    sandboxGet (sandboxSet sb k v) k = some v := by
  induction sb with
  | nil => simp [sandboxSet, sandboxGet]
  | cons p rest ih =>
    by_cases h : p.1 == k
    · simp [sandboxSet, sandboxGet, h]
    · simp [sandboxSet, sandboxGet, h, ih]

/-! ### Claims -/

/-- C1: for every rotator IIFE matched by the Abba string-array rotator
(function-expression callee; arguments an identifier resolving through
scope to a variable declarator with a non-empty array-expression
initializer, and a numeric literal `n`; body mentioning `push` and
`shift`), with `R = n` plus 1 when an inner call passes a pre-`++` update
expression first, and `L` the element count, the transform yields the
permutation `[R mod L .. L-1, 0 .. R mod L - 1]` of the element list and
removes the IIFE, counting one change. -/
theorem rotator_rotates_and_removes
    (ps : List String) (bodySrc : String) (body : List Stmt)
    (a : String) (n : Nat) (scope : Scope) (es : List Expr)
    (hpush : strMentions bodySrc "push" = true)
    (hshift : strMentions bodySrc "shift" = true)
    (hscope : scope a = some (.varDeclarator (some (.arrayExpr es))))
    (hne : es ≠ []) :
    stringArrayRotator (.functionExpr ps bodySrc body) [.ident a, .numLit n] scope
      = some { newElements :=
                 es.drop ((n + (if detectPreIncrement body then 1 else 0)) % es.length)
                   ++ es.take ((n + (if detectPreIncrement body then 1 else 0)) % es.length),
               iifeRemoved := true, changes := 1 } := by
  have hlen : 0 < es.length := List.length_pos.mpr hne
  have hEmpty : es.isEmpty = false := by
    cases es with
    | nil => exact absurd rfl hne
    | cons _ _ => rfl
  have hmod : (n + (if detectPreIncrement body then 1 else 0)) % es.length ≤ es.length :=
    Nat.le_of_lt (Nat.mod_lt _ hlen)
  simp only [stringArrayRotator, hpush, hshift, hscope, hEmpty, Bool.not_true,
    Bool.or_self, Bool.false_eq_true, if_false,
    rotateN_eq_drop_append_take _ _ hmod]

/-- Witness for C1 at spec scenario 3: array `["one","two","three","four"]`,
base rotation 2 plus the pre-increment, so rotation 3. -/
theorem rotator_rotates_and_removes_witness :
    stringArrayRotator rotCalleeW rotArgsW rotScopeW
      = some { newElements :=
                 [.strLit "four", .strLit "one", .strLit "two", .strLit "three"],
               iifeRemoved := true, changes := 1 } := by
  have h := rotator_rotates_and_removes ["e", "f"]
      "var g = function (h) while (--h) e.push(e.shift()); g(++f);"
      [.otherStmt, .exprStmt (.callExpr (.ident "g") [.updateExpr "++" true (.ident "f")])]
      "a" 2 rotScopeW rotElemsW rfl rfl rfl (by simp [rotElemsW])
  exact h

/-- C2 counterexample: on a rotator IIFE whose resolved array expression is
empty, the handler hits the `elements.length === 0` guard and returns
*before* `path.remove()`: the result is `none`, i.e. the IIFE is left in
the tree — contradicting the claim that the IIFE is removed. -/
theorem rotator_empty_counterexample :
    stringArrayRotator rotCalleeW rotArgsW rotScopeEmpty = none := rfl

/-- C2 amended: when the resolved array expression has zero elements the
handler returns early, leaving the IIFE in place, the (empty) element list
unchanged, and the change count untouched. -/
theorem rotator_empty_returns_early
    (ps : List String) (bodySrc : String) (body : List Stmt)
    (a : String) (n : Nat) (scope : Scope)
    (hpush : strMentions bodySrc "push" = true)
    (hshift : strMentions bodySrc "shift" = true)
    (hscope : scope a = some (.varDeclarator (some (.arrayExpr [])))) :
    stringArrayRotator (.functionExpr ps bodySrc body) [.ident a, .numLit n] scope
      = none := by
  simp [stringArrayRotator, hpush, hshift, hscope]

/-- Witness for the amended C2 at the concrete empty-array input. -/
theorem rotator_empty_returns_early_witness :
    stringArrayRotator rotCalleeW rotArgsW rotScopeEmpty = none := by
  have h := rotator_empty_returns_early ["e", "f"]
      "var g = function (h) while (--h) e.push(e.shift()); g(++f);"
      [.otherStmt, .exprStmt (.callExpr (.ident "g") [.updateExpr "++" true (.ident "f")])]
      "a" 2 rotScopeEmpty rfl rfl rfl
  exact h

/-- C4: with a detected proxy of name `p`, offset `o` and strings `S`, a
call `p(lit)` whose first argument parses to `v` (hex for `0x`/`0X`
strings, decimal for other strings, numeric literals as-is) is replaced by
the string literal `S[v - o]` when `0 ≤ v - o < |S|`, and is left
unchanged when `v - o` is out of range. -/
theorem proxy_call_literal_inlining (ctx : ProxyInfo) (hname : ctx.proxyName ≠ "")
    (arg : Expr) (rest : List Expr) (v : Int)
    (hparse : parseCallIndex arg = some v) :
    ((0 ≤ v - (ctx.offset : Int) ∧ v - (ctx.offset : Int) < (ctx.strings.length : Int)) →
      proxyInlineCall ctx (.ident ctx.proxyName) (arg :: rest)
        = some (ctx.strings.getD (v - (ctx.offset : Int)).toNat "")) ∧
    ((v - (ctx.offset : Int) < 0 ∨ (ctx.strings.length : Int) ≤ v - (ctx.offset : Int)) →
      proxyInlineCall ctx (.ident ctx.proxyName) (arg :: rest) = none) ∧
    (∀ m : Nat, parseCallIndex (.numLit m) = some (m : Int)) ∧
    (∀ s : String, parseCallIndex (.strLit s) =
      (if strBegins s "0x" || strBegins s "0X" then parseIntHex s else parseIntDec s)) := by
  refine ⟨?_, ?_, fun m => rfl, fun s => rfl⟩
  · rintro ⟨h0, hlt⟩
    have hnonempty : ctx.strings.isEmpty = false := by
      cases hS : ctx.strings with
      | nil =>
        rw [hS] at hlt
        simp at hlt
        omega
      | cons _ _ => rfl
    simp [proxyInlineCall, hname, hnonempty, hparse]
    omega
  · intro hout
    by_cases hnonempty : ctx.strings.isEmpty
    · simp [proxyInlineCall, hnonempty]
    · simp only [Bool.not_eq_true] at hnonempty
      simp [proxyInlineCall, hname, hnonempty, hparse]
      omega

/-- Witness for C4 at spec scenario 4: `b("0x11")` over
`a = ["X","Y","Z"]` with offset `0x10` inlines to `"Y"`, while
`b("0x20")` is out of range and is left intact. -/
theorem proxy_call_literal_inlining_witness :
    proxyInlineCall proxyCtxW (.ident "b") [.strLit "0x11"] = some "Y" ∧
    proxyInlineCall proxyCtxW (.ident "b") [.strLit "0x20"] = none := by
  have h1 := proxy_call_literal_inlining proxyCtxW (by decide) (.strLit "0x11") [] 17 rfl
  have h2 := proxy_call_literal_inlining proxyCtxW (by decide) (.strLit "0x20") [] 32 rfl
  exact ⟨(h1.1 (by constructor <;> decide)), (h2.2.1 (by right; decide))⟩

/-- C5: every binding removed by the ghost-aware dead-code pass has zero
live references and zero live constant violations after filtering out
ghost paths, and its declaration is a function declaration or a variable
declarator with an absent or pure initializer; a declarator initialized by
a call or `new` expression is never removed. -/
theorem dead_code_removal_sound (bs : List ScopeBinding) (b : ScopeBinding)
    (hmem : b ∈ (processScope bs).1) :
    ((b.referencePaths.filter isValidReference).length = 0 ∧
     (b.constantViolations.filter isValidReference).length = 0) ∧
    (b.node = .funcDecl ∨
      ∃ declInit, b.node = .varDeclarator declInit ∧
        (declInit = none ∨ ∃ e, declInit = some e ∧ isPureInit e = true)) ∧
    (∀ f as_, b.node ≠ .varDeclarator (some (.callExpr f as_))) ∧
    (∀ f as_, b.node ≠ .varDeclarator (some (.newExpr f as_))) := by
  have hrem : bindingRemovable b = true := by
    simp only [processScope] at hmem
    exact (List.mem_filter.mp hmem).2
  unfold bindingRemovable at hrem
  by_cases hcnt : liveRefCount b > 0
  · rw [if_pos hcnt] at hrem
    exact absurd hrem (by simp)
  · have hzero : (b.referencePaths.filter isValidReference).length = 0 ∧
        (b.constantViolations.filter isValidReference).length = 0 := by
      unfold liveRefCount at hcnt
      omega
    rw [if_neg hcnt] at hrem
    refine ⟨hzero, ?_, ?_, ?_⟩
    · cases hn : b.node with
      | funcDecl => exact Or.inl rfl
      | varDeclarator declInit =>
        cases declInit with
        | none => exact Or.inr ⟨none, rfl, Or.inl rfl⟩
        | some e =>
          rw [hn] at hrem
          exact Or.inr ⟨some e, rfl, Or.inr ⟨e, rfl, hrem⟩⟩
      | otherBinding =>
        rw [hn] at hrem
        exact absurd hrem (by simp)
    · intro f as_ hn
      rw [hn] at hrem
      simp only [] at hrem
      simp [isPureInit] at hrem
    · intro f as_ hn
      rw [hn] at hrem
      simp only [] at hrem
      simp [isPureInit] at hrem

/-- Witness for C5: a function declaration whose only reference is a ghost
(the path no longer roots at the program) is removed; the theorem applies
to it. -/
theorem dead_code_removal_sound_witness :
    ((deadBindingW.referencePaths.filter isValidReference).length = 0 ∧
     (deadBindingW.constantViolations.filter isValidReference).length = 0) ∧
    (deadBindingW.node = .funcDecl ∨
      ∃ declInit, deadBindingW.node = .varDeclarator declInit ∧
        (declInit = none ∨ ∃ e, declInit = some e ∧ isPureInit e = true)) ∧
    (∀ f as_, deadBindingW.node ≠ .varDeclarator (some (.callExpr f as_))) ∧
    (∀ f as_, deadBindingW.node ≠ .varDeclarator (some (.newExpr f as_))) := by
  have h := dead_code_removal_sound [deadBindingW] deadBindingW
      (by simp [processScope, bindingRemovable, liveRefCount, deadBindingW,
            ghostRef, isValidReference])
  exact h

/-- C6: for an identifier-named declarator initialized by an IIFE with at
least one string-literal argument, the extractor evaluates in a fresh
sandbox binding the variable's own name to `undefined`; an array result
rewrites the initializer to an array of string literals (one change), and
a non-array result or a thrown evaluation leaves the declarator unchanged. -/
theorem extractor_self_binding_and_rewrite
    (varName : String) (ps : List String) (bodySrc : String) (body : List Stmt)
    (args : List Expr)
    (hstr : args.any (fun a => match a with | .strLit _ => true | _ => false) = true)
    (run : List (String × JSVal) → EvalOutcome) :
    sandboxGet (extractorSandbox varName) varName = some .vundefined ∧
    (∀ items, run (extractorSandbox varName) = .arrayValue items →
      stringArrayExtractor (.identPat varName)
          (some (.callExpr (.functionExpr ps bodySrc body) args)) run
        = { newInit := some (.arrayExpr (items.map fun it => .strLit (jsToString it))),
            changes := 1 }) ∧
    (run (extractorSandbox varName) = .nonArrayValue →
      stringArrayExtractor (.identPat varName)
          (some (.callExpr (.functionExpr ps bodySrc body) args)) run
        = { newInit := none, changes := 0 }) ∧
    (run (extractorSandbox varName) = .threw →
      stringArrayExtractor (.identPat varName)
          (some (.callExpr (.functionExpr ps bodySrc body) args)) run
        = { newInit := none, changes := 0 }) := by
  refine ⟨sandboxGet_set createSandbox varName .vundefined, ?_, ?_, ?_⟩
  · intro items hrun
    simp [stringArrayExtractor, hstr, hrun]
  · intro hrun
    simp [stringArrayExtractor, hstr, hrun]
  · intro hrun
    simp [stringArrayExtractor, hstr, hrun]

/-- Witness for C6 at spec scenario 2's shape: the declarator `_0x1` with
an IIFE initializer carrying a string payload, evaluated to
`["alpha", "beta"]`. -/
theorem extractor_self_binding_and_rewrite_witness :
    sandboxGet (extractorSandbox "_0x1") "_0x1" = some .vundefined ∧
    stringArrayExtractor (.identPat "_0x1")
        (some (.callExpr (.functionExpr ["a", "b"] "" []) [.ident "this", .strLit "0x42"]))
        extractRunW
      = { newInit := some (.arrayExpr [.strLit "alpha", .strLit "beta"]),
          changes := 1 } := by
  have h := extractor_self_binding_and_rewrite "_0x1" ["a", "b"] "" []
      [.ident "this", .strLit "0x42"] rfl extractRunW
  exact ⟨h.1, h.2.1 [.vstr "alpha", .vstr "beta"] rfl⟩

/-- C7: without a sandbox, or when `findStringArray` finds nothing, the
obfuscator.io run is a no-op: no transform is applied, nothing is removed,
and no change is credited. -/
theorem oio_noop_without_sandbox_or_array (ctx : OioContext)
    (h : ctx.hasSandbox = false ∨ ctx.stringArray = none) :
    obfuscatorIoRun ctx =
      { changes := 0, arrayRemoved := false, rotatorRemoved := false,
        decodersRemoved := 0, ranTransforms := false } := by
  rcases h with h | h
  · simp [obfuscatorIoRun, h]
  · cases hs : ctx.hasSandbox <;> simp [obfuscatorIoRun, hs, h]

/-- Witness for C7: both bail-out inputs in one statement. -/
theorem oio_noop_without_sandbox_or_array_witness :
    obfuscatorIoRun oioNoSandboxW =
      { changes := 0, arrayRemoved := false, rotatorRemoved := false,
        decodersRemoved := 0, ranTransforms := false } ∧
    obfuscatorIoRun oioNoArrayW =
      { changes := 0, arrayRemoved := false, rotatorRemoved := false,
        decodersRemoved := 0, ranTransforms := false } := by
  exact ⟨oio_noop_without_sandbox_or_array oioNoSandboxW (Or.inl rfl),
         oio_noop_without_sandbox_or_array oioNoArrayW (Or.inr rfl)⟩

/-- C8: when at least one decoder was found, the run removes the string
array, removes the rotator exactly when one was present, removes every
decoder, and credits exactly `2 + |decoders|` changes for the removal step
on top of the transform change counts — independently of whether a rotator
was present. -/
theorem oio_removal_credits (ctx : OioContext) (sa : Nat)
    (hs : ctx.hasSandbox = true) (ha : ctx.stringArray = some sa)
    (hd : ctx.decoders ≠ []) :
    (obfuscatorIoRun ctx).arrayRemoved = true ∧
    (obfuscatorIoRun ctx).rotatorRemoved = ctx.rotatorPresent ∧
    (obfuscatorIoRun ctx).decodersRemoved = ctx.decoders.length ∧
    (obfuscatorIoRun ctx).changes =
      ctx.objectPropsChanges + ctx.decoders.foldl (fun acc c => acc + c) 0 +
        ctx.decodedStringsChanges + (2 + ctx.decoders.length) +
        ctx.cleanupChanges ∧
    (∀ b : Bool,
      (obfuscatorIoRun { ctx with rotatorPresent := b }).changes =
        (obfuscatorIoRun ctx).changes) := by
  have hlen : 0 < ctx.decoders.length := List.length_pos.mpr hd
  refine ⟨?_, ?_, ?_, ?_, ?_⟩
  · simp [obfuscatorIoRun, hs, ha, hlen]
  · simp [obfuscatorIoRun, hs, ha, hlen]
  · simp [obfuscatorIoRun, hs, ha, hlen]
  · simp [obfuscatorIoRun, hs, ha, hlen]
  · intro b
    simp [obfuscatorIoRun, hs, ha, hlen]

/-- Witness for C8: two decoders, no rotator, removal credit `2 + 2`. -/
theorem oio_removal_credits_witness :
    (obfuscatorIoRun oioFullW).arrayRemoved = true ∧
    (obfuscatorIoRun oioFullW).rotatorRemoved = false ∧
    (obfuscatorIoRun oioFullW).decodersRemoved = 2 ∧
    (obfuscatorIoRun oioFullW).changes = 1 + 4 + 4 + (2 + 2) + 5 := by
  have h := oio_removal_credits oioFullW 2 rfl rfl (by simp [oioFullW])
  exact ⟨h.1, (h.2.1).trans rfl, (h.2.2.1).trans rfl, (h.2.2.2.1).trans rfl⟩

/-- Membership in an `insertDesc` result comes from the inserted element or
the original list. -/
theorem insertDesc_mem (x y : String × ℚ) (l : List (String × ℚ))
    (h : x ∈ insertDesc y l) : x = y ∨ x ∈ l := by
  induction l with
  | nil =>
    simp [insertDesc] at h
    exact Or.inl h
  | cons z zs ih =>
    simp only [insertDesc] at h
    by_cases hc : y.2 > z.2
    · rw [if_pos hc] at h
      rcases List.mem_cons.mp h with h1 | h2
      · exact Or.inl h1
      · exact Or.inr h2
    · rw [if_neg hc] at h
      rcases List.mem_cons.mp h with h1 | h2
      · exact Or.inr (List.mem_cons.mpr (Or.inl h1))
      · rcases ih h2 with h3 | h3
        · exact Or.inl h3
        · exact Or.inr (List.mem_cons.mpr (Or.inr h3))

/-- Inserting into a list whose head dominates keeps the head dominating. -/
theorem insertDesc_head_max (y : String × ℚ) (l : List (String × ℚ))
    (hl : ∀ h t, l = h :: t → ∀ x ∈ l, x.2 ≤ h.2) :
    ∀ h t, insertDesc y l = h :: t → ∀ x ∈ insertDesc y l, x.2 ≤ h.2 := by
  cases l with
  | nil =>
    intro h t heq x hx
    simp only [insertDesc] at heq hx
    injection heq with h1 _
    simp at hx
    rw [hx, ← h1]
  | cons z zs =>
    intro h t heq x hx
    simp only [insertDesc] at heq hx
    by_cases hc : y.2 > z.2
    · rw [if_pos hc] at heq hx
      injection heq with h1 h2
      subst h1
      rcases List.mem_cons.mp hx with hx1 | hx2
      · rw [hx1]
      · exact le_of_lt (lt_of_le_of_lt (hl z zs rfl x hx2) hc)
    · rw [if_neg hc] at heq hx
      injection heq with h1 h2
      subst h1
      rcases List.mem_cons.mp hx with hx1 | hx2
      · rw [hx1]
      · rcases insertDesc_mem x y zs hx2 with h3 | h3
        · rw [h3]
          exact not_lt.mp hc
        · exact hl z zs rfl x (List.mem_cons.mpr (Or.inr h3))

/-- The head of the descending sort dominates every element.  This is the
"highest confidence" property of `detections[0]`. -/
theorem sortDesc_head_max (l : List (String × ℚ)) :
    ∀ h t, sortDesc l = h :: t → ∀ x ∈ sortDesc l, x.2 ≤ h.2 := by
  induction l with
  | nil =>
    intro h t heq
    simp [sortDesc] at heq
  | cons z zs ih =>
    simp only [sortDesc]
    exact insertDesc_head_max z (sortDesc zs) ih

/-- C9: target resolution.  An explicit target id other than `auto` that is
missing from the registry fails with `UnknownTargetError`; in auto mode,
when the top detection's confidence reaches the threshold (default `0.3`),
that target — which has the highest confidence among all detections — is
selected; below the threshold, or with no detections, the registered
default is used; with no default, no target resolves and
`runDeobfuscation` returns a state with `changes = 0`. -/
theorem resolve_target_spec (r : RegistryM) (opts : RunnerOptions) :
    (∀ s, opts.target = some (.str s) → s ≠ "auto" → registryGet r s = none →
      resolveTarget r opts = .error .unknownTarget) ∧
    (∀ d rest, opts.target = some (.str "auto") →
      registryDetect r = d :: rest → opts.threshold.getD (3 / 10 : ℚ) ≤ d.2 →
      resolveTarget r opts = .ok (some d.1) ∧
        ∀ x ∈ registryDetect r, x.2 ≤ d.2) ∧
    (∀ d rest, opts.target = some (.str "auto") →
      registryDetect r = d :: rest → d.2 < opts.threshold.getD (3 / 10 : ℚ) →
      resolveTarget r opts = resolveFallback r) ∧
    (opts.target = some (.str "auto") → registryDetect r = [] →
      resolveTarget r opts = resolveFallback r) ∧
    (∀ dt, registryGetDefault r = some dt →
      resolveFallback r = .ok (some dt.id)) ∧
    (registryGetDefault r = none → resolveFallback r = .ok none) ∧
    (∀ tc, resolveTarget r opts = .ok none →
      runDeobfuscation r opts tc = .ok 0) := by
  refine ⟨?_, ?_, ?_, ?_, ?_, ?_, ?_⟩
  · intro s hs hne hget
    simp [resolveTarget, hs, hne, hget]
  · intro d rest hauto hdet hthr
    constructor
    · simp [resolveTarget, hauto, resolveAuto, hdet, hthr]
    · intro x hx
      have hdet2 := hdet
      simp only [registryDetect] at hdet2
      have hx2 := hx
      simp only [registryDetect] at hx2
      exact sortDesc_head_max _ d rest hdet2 x hx2
  · intro d rest hauto hdet hthr
    simp [resolveTarget, hauto, resolveAuto, hdet, not_le.mpr hthr]
  · intro hauto hdet
    simp [resolveTarget, hauto, resolveAuto, hdet]
  · intro dt h
    simp [resolveFallback, h]
  · intro h
    simp [resolveFallback, h]
  · intro tc h
    simp [runDeobfuscation, h]

/-- Witness for C9: on the registry of `targets/index.ts`, the unknown id
`cloudflare` fails, and auto mode picks `obfuscator.io` (confidence `0.5`,
threshold defaulting to `0.3`). -/
theorem resolve_target_spec_witness :
    resolveTarget regW optsUnknownW = .error .unknownTarget ∧
    resolveTarget regW optsAutoW = .ok (some "obfuscator.io") := by
  have h1 := (resolve_target_spec regW optsUnknownW).1 "cloudflare" rfl
      (by decide) rfl
  have hdet : registryDetect regW = [("obfuscator.io", 1 / 2)] := by
    have hpos : (0 : ℚ) < 1 / 2 := by norm_num
    have hzero : ¬ ((0 : ℚ) < 0) := by norm_num
    simp [registryDetect, regW, sortDesc, insertDesc, List.filterMap_cons,
      hpos, hzero]
  have h2 := (resolve_target_spec regW optsAutoW).2.1 ("obfuscator.io", 1 / 2) []
      rfl hdet (by norm_num [optsAutoW])
  exact ⟨h1, h2.1⟩

/-- A successful analysis captures the candidate's own name as the proxy
name (`proxyName = funcName`). -/
theorem analyzeProxyFunction_name (funcName : String) (pc : Nat)
    (nodes : List InnerNode) (scope : Scope) (info : ProxyInfo)
    (h : analyzeProxyFunction funcName pc nodes scope = some info) :
    info.proxyName = funcName := by
  unfold analyzeProxyFunction at h
  split at h
  · cases h
  · split at h
    · split at h
      · cases h
      · split at h
        · injection h with h1
          rw [← h1]
        · cases h

/-- No step of the traversal writes `removedIdx`; only the program-exit
handler does. -/
theorem piRunAux_removedIdx (scope : Scope) :
    ∀ (l : List PEvent) (idx : Nat) (s : PIState),
      (piRunAux scope l idx s).removedIdx = s.removedIdx := by
  intro l
  induction l with
  | nil => intro idx s; rfl
  | cons ev rest ih =>
    intro idx s
    rw [piRunAux, ih]
    cases ev with
    | funcDeclCand n pc nodes =>
      simp only [piStep]
      split
      · rfl
      · split <;> rfl
    | varDeclCand n pc nodes =>
      simp only [piStep]
      split
      · rfl
      · split <;> rfl
    | call callee args =>
      simp only [piStep]
      split <;> rfl
    | skipNode => rfl

/-- One step never alters the captured proxy fields once a proxy has been
captured (`if (proxyName) return` in both candidate handlers; call steps
touch only the change count and the inline log). -/
theorem piStep_fields_frozen (scope : Scope) (s : PIState) (idx : Nat)
    (ev : PEvent) (hs : s.proxyName ≠ "") :
    piFields (piStep scope s idx ev) = piFields s := by
  cases ev with
  | funcDeclCand n pc nodes => simp [piStep, hs]
  | varDeclCand n pc nodes => simp [piStep, hs]
  | call callee args =>
    simp only [piStep]
    split <;> rfl
  | skipNode => rfl

/-- A call event in the initial (no proxy captured) state is a no-op:
`proxyInlineCall` bails out on the empty proxy name. -/
theorem piStep_call_noname (scope : Scope) (s : PIState) (idx : Nat)
    (callee : Expr) (args : List Expr) (hs : s.proxyName = "") :
    piStep scope s idx (.call callee args) = s := by
  simp [piStep, proxyInlineCall, hs]

/-- After a capture, the rest of the traversal leaves the proxy fields
untouched. -/
theorem piRunAux_fields_frozen (scope : Scope) :
    ∀ (l : List PEvent) (idx : Nat) (s : PIState), s.proxyName ≠ "" →
      piFields (piRunAux scope l idx s) = piFields s := by
  intro l
  induction l with
  | nil => intro idx s _; rfl
  | cons ev rest ih =>
    intro idx s hs
    have hstep := piStep_fields_frozen scope s idx ev hs
    have hs2 : (piStep scope s idx ev).proxyName ≠ "" := by
      have hname : (piStep scope s idx ev).proxyName = s.proxyName :=
        congrArg (fun p => p.1) hstep
      rw [hname]
      exact hs
    rw [piRunAux, ih _ _ hs2, hstep]

/-- Starting from the empty capture state, the proxy fields after any
traversal prefix are exactly those of the prefix's first successful
candidate (or still empty when there is none). -/
theorem piRunAux_fields_track (scope : Scope) :
    ∀ (l : List PEvent) (idx : Nat) (s : PIState),
      (∀ ev ∈ l, candName ev ≠ some "") →
      piFields s = fieldsOfMatch none →
      piFields (piRunAux scope l idx s) = fieldsOfMatch (firstMatch scope l idx) := by
  intro l
  induction l with
  | nil => intro idx s _ hinit; exact hinit
  | cons ev rest ih =>
    intro idx s hn hinit
    have hname : s.proxyName = "" := congrArg (fun p => p.1) hinit
    have hrest : ∀ e ∈ rest, candName e ≠ some "" :=
      fun e he => hn e (List.mem_cons_of_mem _ he)
    rw [piRunAux]
    cases ev with
    | funcDeclCand n pc nodes =>
      cases hana : analyzeProxyFunction n pc nodes scope with
      | some info =>
        have hinfoname : info.proxyName = n :=
          analyzeProxyFunction_name n pc nodes scope info hana
        have hnne : n ≠ "" := by
          have := hn (.funcDeclCand n pc nodes) (List.mem_cons_self _ _)
          simpa [candName] using this
        have hstep : piStep scope s idx (.funcDeclCand n pc nodes) =
            { s with proxyName := info.proxyName, proxyIdx := some idx,
                     arrayName := info.arrayName, offset := info.offset,
                     strings := info.strings } := by
          simp [piStep, hname, hana]
        rw [hstep,
          piRunAux_fields_frozen scope rest _ _ (by rw [hinfoname]; exact hnne)]
        simp [firstMatch, candAnalysis, hana, piFields, fieldsOfMatch]
      | none =>
        have hstep : piStep scope s idx (.funcDeclCand n pc nodes) = s := by
          simp [piStep, hname, hana]
        rw [hstep, ih _ _ hrest hinit]
        simp [firstMatch, candAnalysis, hana]
    | varDeclCand n pc nodes =>
      cases hana : analyzeProxyFunction n pc nodes scope with
      | some info =>
        have hinfoname : info.proxyName = n :=
          analyzeProxyFunction_name n pc nodes scope info hana
        have hnne : n ≠ "" := by
          have := hn (.varDeclCand n pc nodes) (List.mem_cons_self _ _)
          simpa [candName] using this
        have hstep : piStep scope s idx (.varDeclCand n pc nodes) =
            { s with proxyName := info.proxyName, proxyIdx := some idx,
                     arrayName := info.arrayName, offset := info.offset,
                     strings := info.strings } := by
          simp [piStep, hname, hana]
        rw [hstep,
          piRunAux_fields_frozen scope rest _ _ (by rw [hinfoname]; exact hnne)]
        simp [firstMatch, candAnalysis, hana, piFields, fieldsOfMatch]
      | none =>
        have hstep : piStep scope s idx (.varDeclCand n pc nodes) = s := by
          simp [piStep, hname, hana]
        rw [hstep, ih _ _ hrest hinit]
        simp [firstMatch, candAnalysis, hana]
    | call callee args =>
      rw [piStep_call_noname scope s idx callee args hname,
        ih _ _ hrest hinit]
      simp [firstMatch, candAnalysis]
    | skipNode =>
      rw [show piStep scope s idx .skipNode = s from rfl, ih _ _ hrest hinit]
      simp [firstMatch, candAnalysis]

/-- The first match comes from a candidate event of the list, so its proxy
name is the candidate's (nonempty) name. -/
theorem firstMatch_name_ne (scope : Scope) :
    ∀ (l : List PEvent) (idx i : Nat) (info : ProxyInfo),
      (∀ ev ∈ l, candName ev ≠ some "") →
      firstMatch scope l idx = some (i, info) →
      info.proxyName ≠ "" := by
  intro l
  induction l with
  | nil => intro idx i info _ h; cases h
  | cons ev rest ih =>
    intro idx i info hn h
    rw [firstMatch] at h
    cases hana : candAnalysis scope ev with
    | some info2 =>
      rw [hana] at h
      injection h with h1
      have hinfo : info2 = info := congrArg Prod.snd h1
      cases ev with
      | funcDeclCand n pc nodes =>
        simp only [candAnalysis] at hana
        have hna := analyzeProxyFunction_name n pc nodes scope info2 hana
        have hne : n ≠ "" := by
          have := hn (.funcDeclCand n pc nodes) (List.mem_cons_self _ _)
          simpa [candName] using this
        rw [← hinfo, hna]
        exact hne
      | varDeclCand n pc nodes =>
        simp only [candAnalysis] at hana
        have hna := analyzeProxyFunction_name n pc nodes scope info2 hana
        have hne : n ≠ "" := by
          have := hn (.varDeclCand n pc nodes) (List.mem_cons_self _ _)
          simpa [candName] using this
        rw [← hinfo, hna]
        exact hne
      | call callee args => simp [candAnalysis] at hana
      | skipNode => simp [candAnalysis] at hana
    | none =>
      rw [hana] at h
      exact ih _ _ _ (fun e he => hn e (List.mem_cons_of_mem _ he)) h

/-- The program-exit handler does not change the captured index. -/
theorem piFinish_proxyIdx (s : PIState) :
    (piFinish s).proxyIdx = s.proxyIdx := by
  simp only [piFinish]
  split <;> rfl

/-- C10: in one proxy-inliner application at most one proxy is detected:
after any traversal prefix the captured name, index, array, offset and
strings are exactly those of the prefix's *first* successful candidate
(later candidates are skipped, and calls — which inline against exactly
these captured fields — never alter them), and at program exit only that
first candidate's declaration is removed. -/
theorem proxy_inliner_single_capture (scope : Scope) (events : List PEvent)
    (hn : ∀ ev ∈ events, candName ev ≠ some "") :
    (∀ l r, events = l ++ r →
      piFields (piRunAux scope l 0 piInit) = fieldsOfMatch (firstMatch scope l 0)) ∧
    (piRun scope events).proxyIdx = (firstMatch scope events 0).map Prod.fst ∧
    (piRun scope events).removedIdx = (firstMatch scope events 0).map Prod.fst := by
  have htrack : ∀ l r, events = l ++ r →
      piFields (piRunAux scope l 0 piInit) = fieldsOfMatch (firstMatch scope l 0) := by
    intro l r heq
    refine piRunAux_fields_track scope l 0 piInit ?_ rfl
    intro ev he
    refine hn ev ?_
    rw [heq]
    exact List.mem_append.mpr (Or.inl he)
  have hfields := htrack events [] (by simp)
  refine ⟨htrack, ?_, ?_⟩
  · rw [piRun, piFinish_proxyIdx]
    cases hfm : firstMatch scope events 0 with
    | none =>
      rw [hfm] at hfields
      exact congrArg (fun p => p.2.1) hfields
    | some p =>
      rw [hfm] at hfields
      exact congrArg (fun p => p.2.1) hfields
  · have hrem0 : (piRunAux scope events 0 piInit).removedIdx = none :=
      piRunAux_removedIdx scope events 0 piInit
    cases hfm : firstMatch scope events 0 with
    | none =>
      rw [hfm] at hfields
      have hidx : (piRunAux scope events 0 piInit).proxyIdx = none :=
        congrArg (fun p => p.2.1) hfields
      simp [piRun, piFinish, hidx, hrem0]
    | some p =>
      obtain ⟨i, info⟩ := p
      rw [hfm] at hfields
      have hidx : (piRunAux scope events 0 piInit).proxyIdx = some i :=
        congrArg (fun p => p.2.1) hfields
      have hnm : (piRunAux scope events 0 piInit).proxyName = info.proxyName :=
        congrArg (fun p => p.1) hfields
      have hne : info.proxyName ≠ "" :=
        firstMatch_name_ne scope events 0 i info hn hfm
      simp [piRun, piFinish, hidx, hnm, hne]

/-- Witness for C10: two candidates both matching the proxy pattern of
spec scenario 4, followed by a proxy call; only the first (`b`, event 0)
is captured and removed. -/
theorem proxy_inliner_single_capture_witness :
    piFields (piRunAux proxyScopeW [.funcDeclCand "b" 1 proxyNodesW] 0 piInit)
      = ("b", some 0, "a", 16, ["X", "Y", "Z"]) ∧
    (piRun proxyScopeW piEventsW).removedIdx = some 0 := by
  have h := proxy_inliner_single_capture proxyScopeW piEventsW
      (by intro ev he; fin_cases he <;> simp [candName])
  constructor
  · have h1 := h.1 [.funcDeclCand "b" 1 proxyNodesW]
      [.varDeclCand "c" 1 proxyNodesW, .call (.ident "b") [.strLit "0x11"]] rfl
    exact h1.trans rfl
  · exact h.2.2.trans rfl

end Webcrack
